import Mathlib

/-!
# Verification of the studio-disponibility core against its specification

Shallow embedding of the repository's core logic:

* `src/app/utils.py`   — `get_dates_from_range`, `strip_room_name`,
  `combine_datetime_midnight_aware`
* `src/app/models.py`  — `Room`, `Band`, `Booking`, `convert_quickstudio_response`
* `src/app/sql.py`     — SQL table models, `convert_quickstudio_response`,
  `refresh_bookings`, `get_bookings`
* `src/app/quickstudioapi.py` — raw upstream records and the per-date TTL-cached
  fetch (modelled as an interleaving state machine for the concurrency claim)
* `src/app/main.py`    — `_compute_room_availabilities`, the `/availability` loop

Temporal values: a Python `datetime.time` is embedded as a `Nat` counting minutes
since midnight (real times-of-day satisfy `< 1440`; the order on times-of-day is
the order on minute counts, no bound is needed for comparisons).  A Python
`datetime.date` is an `Int` day number.  A timezone-naive `datetime` appearing in
datetime arithmetic/comparisons is embedded as an `Int` of absolute minutes
(`combine date time = date * 1440 + time`), which is exactly Python's comparison
order on `datetime.combine(date, time)` values for times below one day.  Where an
upstream `datetime` is only ever decomposed into its `.date()`/`.time()` parts
(the normalizer), it is embedded as the pair `Dt` of day and minute.
-/

/-- Python `set.add` as observed through membership/iteration: add the element
unless a structurally equal one is present (pydantic `__eq__` compares all
fields; `__hash__` only narrows buckets and is consistent with it here since
equal values have equal ids). Insertion order stands in for the set's
unspecified iteration order. -/
def pysetAdd {α : Type} [DecidableEq α] (l : List α) (x : α) : List α :=
  if x ∈ l then l else l ++ [x]

/-- Stable insertion of `x` into `l` after every element `y` with `le y x`:
the building block of a stable sort equal, as a function, to Python's stable
`sorted` for any total transitive boolean comparator. -/
def insertSorted {α : Type} (le : α → α → Bool) (x : α) : List α → List α
  | [] => [x]
  | y :: ys => if le y x then y :: insertSorted le x ys else x :: y :: ys

/-- Python `sorted(l, key=...)` (a stable sort; any stable sort by the same
total-preorder comparator is extensionally the same function). -/
def sortByKey {α : Type} (le : α → α → Bool) (l : List α) : List α :=
  l.foldl (fun acc x => insertSorted le x acc) []

/-- A timezone-naive upstream `datetime`, kept as its calendar day and its
minute-of-day (`.date()` and `.time()` in the Python source). -/
structure Dt where
  day : Int
  minute : Nat
deriving DecidableEq, Repr

/-- `quickstudioapi.Band` — raw band reference in the upstream JSON. -/
structure QSBand where
  id : Int
  name : String
deriving DecidableEq, Repr

/-- `quickstudioapi.Booking` — raw booking record in the upstream JSON. -/
structure QSBooking where
  type : Int
  start : Dt
  «end» : Dt
  band : Option QSBand
deriving DecidableEq, Repr

/-- `quickstudioapi.RoomBooking` — raw per-room record in the upstream JSON. -/
structure RoomBooking where
  id : Int
  name : String
  description : String
  size : Int
  «open» : Dt
  close : Dt
  bookings : List QSBooking
deriving DecidableEq, Repr

/-! ## `strip_room_name` (`src/app/utils.py:20-25`, duplicated as
`_strip_room_name` in `src/app/main.py:234-239`)

The source is `re.match(r"^\d+\.([\w\s]+)\s.*$", room_name)`, returning
`group(1)` on a match and the input unchanged otherwise.  The embedding renders
Python's leftmost-greedy backtracking semantics for this fixed pattern:

* `\d+` then `\.`: the maximal digit prefix must be nonempty and be followed by
  a literal dot (no backtracking ambiguity since `.` is not a digit);
* `([\w\s]+)\s.*$`: `grpAux` extends the capture greedily over word/space
  characters and, on failure of the longer alternative, backtracks to end the
  capture just before a whitespace character, provided `.*$` accepts the rest.

Character classes are the ASCII fragment of Python's Unicode `\w`/`\s` (room
names in this repository are ASCII). -/

/-- ASCII fragment of Python regex `\w`: letters, digits, underscore. -/
def isWordChar (c : Char) : Bool :=
  c.isAlpha || c.isDigit || c = '_'

/-- ASCII fragment of Python regex `\s`. -/
def isSpaceChar (c : Char) : Bool :=
  c = ' ' || c = '\t' || c = '\n' || c = '\r' || c = '\x0b' || c = '\x0c'

/-- Python regex class `[\w\s]`. -/
def isWordSpace (c : Char) : Bool :=
  isWordChar c || isSpaceChar c

/-- Python's `.*$` on the remainder of the subject: `.` never matches a
newline, and `$` matches at the end of the string or just before a final
newline. -/
def matchTail (t : List Char) : Bool :=
  match t.getLast? with
  | some '\n' => !(t.dropLast.contains '\n')
  | _ => !(t.contains '\n')

/-- Backtracking matcher for `([\w\s]+)\s.*$` against `rest`, with `acc` the
capture consumed so far: greedily extend the capture, else end it just before a
whitespace character whose tail `.*$` accepts.  Returns the captured group. -/
def grpAux (acc : List Char) : List Char → Option (List Char)
  | [] => none
  | c :: cs =>
    if isWordSpace c then
      match grpAux (acc ++ [c]) cs with
      | some g => some g
      | none =>
        if !acc.isEmpty && isSpaceChar c && matchTail cs then some acc else none
    else none

/-- `utils.strip_room_name` / `main._strip_room_name`:
`re.match(r"^\d+\.([\w\s]+)\s.*$", room_name)`, `group(1)` on success, the
input unchanged otherwise. -/
def strip_room_name (s : String) : String :=
  let cs := s.data
  let digits := cs.takeWhile Char.isDigit
  match digits, cs.drop digits.length with
  | _ :: _, '.' :: rest =>
    match grpAux [] rest with
    | some g => String.mk g
    | none => s
  | _, _ => s

/-- Modelled from the spec's words (for the refinement comparison of claim C9,
not from the source): "leading digits + dot, capture the first run of
word/space characters, discard the remainder" — i.e. after the digits-and-dot
prefix, return the maximal leading run of word/space characters. -/
def spec_strip_room_name (s : String) : String :=
  let cs := s.data
  let digits := cs.takeWhile Char.isDigit
  match digits, cs.drop digits.length with
  | _ :: _, '.' :: rest => String.mk (rest.takeWhile isWordSpace)
  | _, _ => s

/-! ## Date/time helpers (`src/app/utils.py`, `src/app/main.py`) -/

/-- `datetime.combine(date, time)` as absolute minutes. -/
def combine (date : Int) (time : Nat) : Int :=
  date * 1440 + time

/-- `utils.combine_datetime_midnight_aware` (`src/app/utils.py:28-33`):
if the time is midnight, the date is the next day. -/
def combine_datetime_midnight_aware (date : Int) (time : Nat) : Int :=
  combine (if time = 0 then date + 1 else date) time

/-- `utils.get_dates_from_range` (`src/app/utils.py:10-13`):
`[from_date + timedelta(days=day) for day in range((to_date-from_date).days + 1)]`
(`range` of a non-positive bound is empty, which `Int.toNat` reproduces). -/
def get_dates_from_range (from_date to_date : Int) : List Int :=
  (List.range (to_date - from_date + 1).toNat).map (fun day => from_date + day)

/-- Python `date.isoweekday()` for the day-number embedding, with day 0 chosen
as 1970-01-01, a Thursday (isoweekday 4).  `%` on `Int` is Euclidean, matching
Python's nonnegative `%`. -/
def isoweekday (d : Int) : Int :=
  (d + 3) % 7 + 1

/-! ## SQL data model (`src/app/sql.py:20-67`) -/

/-- `sql.Room` — `open`/`close` are times-of-day (minutes). -/
structure Room where
  id : Int
  name : String
  description : String
  size : Int
  «open» : Nat
  close : Nat
  studio_name : String
deriving DecidableEq, Repr

/-- `sql.Band`. -/
structure Band where
  id : Int
  name : String
deriving DecidableEq, Repr

/-- `sql.Booking` — a row of the booking table (the surrogate `id` primary key
is dropped: rows are compared by their data, which is how the claims speak of
booking sets). `end` may be `0` (midnight), meaning the start of the next day. -/
structure Booking where
  type : Int
  date : Int
  start : Nat
  «end» : Nat
  band_id : Int
  room_id : Int
deriving DecidableEq, Repr

/-! ## Normalizer, SQL variant (`src/app/sql.py:70-126`) -/

/-- The day-span invariant check of `convert_quickstudio_response`
(`src/app/sql.py:97-107`): a booking spanning two calendar days is illegal
unless its end is exactly midnight of the day after its start. -/
def spansIllegally (b : QSBooking) : Bool :=
  b.start.day != b.«end».day &&
    !(b.«end».minute == 0 && b.«end».day == b.start.day + 1)

/-- The `Room` row built for a raw record (`src/app/sql.py:77-85`). -/
def mkRoom (studio_name : String) (rb : RoomBooking) : Room :=
  { id := rb.id, name := rb.name, description := rb.description,
    size := rb.size, «open» := rb.«open».minute, close := rb.close.minute,
    studio_name := studio_name }

/-- The `Booking` row built for a type-1 raw booking (`src/app/sql.py:109-118`);
the band id defaults to 0 on a missing band, a case the converter has already
rejected when this is used. -/
def mkRow (room : Room) (b : QSBooking) : Booking :=
  { type := b.type, date := b.start.day, start := b.start.minute,
    «end» := b.«end».minute,
    band_id := (match b.band with | some qb => qb.id | none => 0),
    room_id := room.id }

/-- Inner loop of `sql.convert_quickstudio_response` over one record's raw
bookings (`src/app/sql.py:87-124`): type 1 requires a band (else a fatal
error), is checked for the day-span invariant (fatal on violation) and is
appended; type 4 is silently dropped; any other type is a fatal error. -/
def convOne (room : Room) :
    List Band → List Booking → List QSBooking →
      Except String (List Band × List Booking)
  | bands, bookings, [] => .ok (bands, bookings)
  | bands, bookings, b :: rest =>
    if b.type = 1 then
      match b.band with
      | none => .error "booking has no band but has type 1"
      | some qb =>
        let bands := pysetAdd bands (⟨qb.id, qb.name⟩ : Band)
        if spansIllegally b then
          .error "booking spans several days which is not expected"
        else
          convOne room bands (bookings ++ [mkRow room b]) rest
    else if b.type = 4 then
      convOne room bands bookings rest
    else
      .error "Unknow booking type"

/-- Outer loop of `sql.convert_quickstudio_response` over the raw records
(`src/app/sql.py:76-126`), threading the `rooms`/`bands` sets and the bookings
list. -/
def convAll (studio_name : String) :
    List Room → List Band → List Booking → List RoomBooking →
      Except String (List Room × List Band × List Booking)
  | rooms, bands, bookings, [] => .ok (rooms, bands, bookings)
  | rooms, bands, bookings, rb :: rest =>
    let room := mkRoom studio_name rb
    let rooms := pysetAdd rooms room
    match convOne room bands bookings rb.bookings with
    | .error e => .error e
    | .ok (bands, bookings) => convAll studio_name rooms bands bookings rest

/-- `sql.convert_quickstudio_response` (`src/app/sql.py:70-126`): a raised
exception is the `.error` case; on success the rooms, bands and bookings of
the whole response. -/
def convert_quickstudio_response (studio_name : String)
    (room_bookings : List RoomBooking) :
    Except String (List Room × List Band × List Booking) :=
  convAll studio_name [] [] [] room_bookings

/-- The normalization-error condition of one raw booking, as claim C5 words it:
a type other than 1 or 4, or type 1 without a band, or type 1 with an illegal
day span. -/
def badBooking (b : QSBooking) : Prop :=
  (b.type ≠ 1 ∧ b.type ≠ 4) ∨
    (b.type = 1 ∧ (b.band = none ∨ spansIllegally b = true))

instance (b : QSBooking) : Decidable (badBooking b) := by
  unfold badBooking; infer_instance

/-- The booking rows the normalizer keeps: exactly the type-1 raw bookings, in
response order, converted against their record's room. -/
def type1Rows (studio_name : String) (room_bookings : List RoomBooking) :
    List Booking :=
  room_bookings.flatMap (fun rb =>
    (rb.bookings.filter (fun b => b.type == 1)).map
      (mkRow (mkRoom studio_name rb)))

/-! ## Normalizer, models variant (`src/app/models.py:36-104`)

Identical logic to the SQL variant; its `Booking` embeds the `Band` and `Room`
values instead of foreign keys, and the result tuple is
`(bands, bookings, rooms)`. -/

/-- `models.Booking` (`src/app/models.py:36-46`). -/
structure MBooking where
  type : Int
  date : Int
  start : Nat
  «end» : Nat
  band : Band
  room : Room
deriving DecidableEq, Repr

/-- The `models.Booking` built for a type-1 raw booking
(`src/app/models.py:87-96`). -/
def mkMBooking (room : Room) (b : QSBooking) : MBooking :=
  { type := b.type, date := b.start.day, start := b.start.minute,
    «end» := b.«end».minute,
    band := (match b.band with | some qb => ⟨qb.id, qb.name⟩ | none => ⟨0, ""⟩),
    room := room }

/-- Inner loop of `models.convert_quickstudio_response`
(`src/app/models.py:66-102`). -/
def mconvOne (room : Room) :
    List Band → List MBooking → List QSBooking →
      Except String (List Band × List MBooking)
  | bands, bookings, [] => .ok (bands, bookings)
  | bands, bookings, b :: rest =>
    if b.type = 1 then
      match b.band with
      | none => .error "booking has no band but has type 1"
      | some qb =>
        let bands := pysetAdd bands (⟨qb.id, qb.name⟩ : Band)
        if spansIllegally b then
          .error "booking spans several days which is not expected"
        else
          mconvOne room bands (bookings ++ [mkMBooking room b]) rest
    else if b.type = 4 then
      mconvOne room bands bookings rest
    else
      .error "Unknow booking type"

/-- Outer loop of `models.convert_quickstudio_response`
(`src/app/models.py:55-104`).  `models.Room` has the same fields as `sql.Room`,
so `Room`/`mkRoom` are shared. -/
def mconvAll (studio_name : String) :
    List Room → List Band → List MBooking → List RoomBooking →
      Except String (List Band × List MBooking × List Room)
  | rooms, bands, bookings, [] => .ok (bands, bookings, rooms)
  | rooms, bands, bookings, rb :: rest =>
    let room := mkRoom studio_name rb
    let rooms := pysetAdd rooms room
    match mconvOne room bands bookings rb.bookings with
    | .error e => .error e
    | .ok (bands, bookings) => mconvAll studio_name rooms bands bookings rest

/-- `models.convert_quickstudio_response` (`src/app/models.py:49-104`). -/
def models_convert_quickstudio_response (studio_name : String)
    (room_bookings : List RoomBooking) :
    Except String (List Band × List MBooking × List Room) :=
  mconvAll studio_name [] [] [] room_bookings

/-! ## Durable store (`src/app/sql.py:129-161`) -/

/-- The three tables the refresh path touches. -/
structure DBState where
  rooms : List Room
  bands : List Band
  bookings : List Booking
deriving DecidableEq, Repr

/-- `session.merge(room)`: upsert by the `id` primary key. -/
def mergeRoom (table : List Room) (r : Room) : List Room :=
  if table.any (fun x => x.id == r.id) then
    table.map (fun x => if x.id == r.id then r else x)
  else
    table ++ [r]

/-- `session.merge(band)`: upsert by the `id` primary key. -/
def mergeBand (table : List Band) (b : Band) : List Band :=
  if table.any (fun x => x.id == b.id) then
    table.map (fun x => if x.id == b.id then b else x)
  else
    table ++ [b]

/-- `sql.get_bookings` (`src/app/sql.py:150-161`): bookings of the date, joined
with `Room` on the foreign key, restricted to the studio. -/
def get_bookings (db : DBState) (studio_name : String) (date : Int) :
    List Booking :=
  db.bookings.filter (fun b =>
    b.date == date &&
      db.rooms.any (fun r => r.id == b.room_id && r.studio_name == studio_name))

/-- `sql.refresh_bookings` (`src/app/sql.py:129-146`) with the upstream
response for the date passed in (the fetch itself is I/O): convert, merge rooms
and bands, delete the stale bookings `get_bookings` returns for the
(studio, date), insert the converted bookings.  A conversion error propagates
and the state is unchanged (`session.commit` is never reached). -/
def refresh_bookings (db : DBState) (studio_name : String) (date : Int)
    (room_bookings : List RoomBooking) : Except String DBState :=
  match convert_quickstudio_response studio_name room_bookings with
  | .error e => .error e
  | .ok (rooms, bands, bookings) =>
    let newRooms := rooms.foldl mergeRoom db.rooms
    let newBands := bands.foldl mergeBand db.bands
    let db1 : DBState :=
      { rooms := newRooms, bands := newBands, bookings := db.bookings }
    let stale := get_bookings db1 studio_name date
    .ok { rooms := newRooms, bands := newBands,
          bookings := db1.bookings.filter (fun b => !(stale.contains b))
            ++ bookings }

/-! ## Availability engine (`src/app/main.py:26-34, 161-231`) -/

/-- `main.RoomAvailability`: a free window, `start`/`end` full date-times. -/
structure RoomAvailability where
  room_name : String
  date : Int
  start : Int
  «end» : Int
deriving DecidableEq, Repr

/-- The room's effective open boundary for the day
(`src/app/main.py:184`): `Datetime.combine(date, max(room.open, from_time))`. -/
def effective_open (date : Int) (room : Room) (from_time : Nat) : Int :=
  combine date (max room.«open» from_time)

/-- The room's effective close boundary (`src/app/main.py:185-190`):
`min(room.close, to_time)` combined with `date`, except that a midnight result
is combined with `date + 1`. -/
def effective_close (date : Int) (room : Room) (to_time : Nat) : Int :=
  let min_close := min room.close to_time
  combine (if min_close = 0 then date + 1 else date) min_close

/-- The sweep loop of `_compute_room_availabilities`
(`src/app/main.py:201-222`): for each booking, emit
`[start_pointer, combine(booking.date, booking.start))` when the booking starts
strictly after the pointer, then advance the pointer to
`max(combine(date, booking.end), start_pointer)` — note the source combines the
booking's end with the query `date`, not midnight-aware; after the last
booking, emit `[start_pointer, end_pointer)` when the close boundary is still
strictly ahead. -/
def sweepRoom (date : Int) (room_name : String) (end_pointer : Int) :
    Int → List Booking → List RoomAvailability
  | start_pointer, [] =>
    if end_pointer > start_pointer then
      [⟨room_name, date, start_pointer, end_pointer⟩]
    else []
  | start_pointer, b :: rest =>
    (if combine b.date b.start > start_pointer then
      [⟨room_name, date, start_pointer, combine b.date b.start⟩]
    else []) ++
      sweepRoom date room_name end_pointer
        (max (combine date b.«end») start_pointer) rest

/-- Comparator for `sorted(..., key=lambda x: x.start)`
(`src/app/main.py:194`). -/
def bookingStartLe (a b : Booking) : Bool :=
  decide (a.start ≤ b.start)

/-- This room's bookings in chronological order (`src/app/main.py:172-197`):
the `groupby` over the room-id-sorted list hands each room exactly the original
bookings with its id, in original order (the sort by room id is stable), and a
room absent from the dict gets `[]`, which the filter reproduces; then a stable
sort by start time. -/
def room_bookings_sorted (bookings : List Booking) (room : Room) :
    List Booking :=
  sortByKey bookingStartLe (bookings.filter (fun b => b.room_id == room.id))

/-- One room's candidate windows (`src/app/main.py:183-222`). -/
def roomSweep (date : Int) (from_time to_time : Nat) (room : Room)
    (bookings : List Booking) : List RoomAvailability :=
  sweepRoom date (strip_room_name room.name)
    (effective_close date room to_time)
    (effective_open date room from_time)
    (room_bookings_sorted bookings room)

/-- One room's windows after the minimum-duration filter
(`src/app/main.py:223-228` restricted to this room's candidates; the global
duration filter commutes with the per-room concatenation). -/
def roomWindows (date : Int) (from_time to_time : Nat)
    (min_availability_duration : Int) (room : Room)
    (bookings : List Booking) : List RoomAvailability :=
  (roomSweep date from_time to_time room bookings).filter
    (fun a => decide (min_availability_duration ≤ a.«end» - a.start))

/-- Comparator for the final `sorted(filtered_availabilities, key=...a.start)`
(`src/app/main.py:231`). -/
def availStartLe (a b : RoomAvailability) : Bool :=
  decide (a.start ≤ b.start)

/-- `main._compute_room_availabilities` (`src/app/main.py:161-231`):
`studio.rooms is None` yields no windows; otherwise sweep every room of
sufficient size, drop windows shorter than the minimum duration, and sort the
survivors by start time. -/
def compute_room_availabilities (rooms? : Option (List Room))
    (bookings : List Booking) (date : Int) (from_time to_time : Nat)
    (min_availability_duration : Int) (min_room_size : Int) :
    List RoomAvailability :=
  match rooms? with
  | none => []
  | some rooms =>
    let availabilities :=
      (rooms.filter (fun r => decide (min_room_size ≤ r.size))).flatMap
        (fun room => roomSweep date from_time to_time room bookings)
    let filtered := availabilities.filter
      (fun a => decide (min_availability_duration ≤ a.«end» - a.start))
    sortByKey availStartLe filtered

/-! ## The `/availability` date loop (`src/app/main.py:98-130`) -/

/-- The dates the `/availability` handler processes: one per loop iteration of
`range((end_date - start_date).days + 1)`, skipping days whose isoweekday is
not requested. -/
def availability_dates (start_date end_date : Int)
    (days_of_week : List Int) : List Int :=
  (List.range (end_date - start_date + 1).toNat).filterMap (fun day =>
    let current_date := start_date + day
    if isoweekday current_date ∈ days_of_week then some current_date else none)

/-- The `room_availabilities_per_date` mapping the handler builds
(`src/app/main.py:98-130`): one entry per processed date, in insertion order,
holding that date's computed availabilities (`bookingsOf` abstracts the
per-date result of `get_bookings` after the freshness-guarded refresh). -/
def room_availabilities_per_date (rooms? : Option (List Room))
    (bookingsOf : Int → List Booking) (start_date end_date : Int)
    (days_of_week : List Int) (from_time to_time : Nat)
    (min_availability_duration : Int) (min_room_size : Int) :
    List (Int × List RoomAvailability) :=
  (availability_dates start_date end_date days_of_week).map (fun date =>
    (date, compute_room_availabilities rooms? (bookingsOf date) date
      from_time to_time min_availability_duration min_room_size))

/-! ## Concurrent fetch model (`src/app/quickstudioapi.py:45-85`)

`_run_quickstudio_bookings_request` checks the module-level TTL cache, and on a
miss awaits the HTTP request and then stores the response.  The only suspension
point is the HTTP await, so each request task is two atomic steps: the cache
check (miss moves it to `fetching`, hit completes it), and the fetch completion
(counts one upstream call and fills the cache).  A scheduler interleaves the
tasks by index, which models `asyncio.gather` over `create_task`-spawned
coroutines as well as concurrent handler invocations. -/

/-- Where a request task stands relative to its await points. -/
inductive TaskPhase where
  | ready
  | fetching
  | done
deriving DecidableEq, Repr

/-- The TTL cache entry for one date (present or not), the number of upstream
calls issued for that date, and the request tasks for it. -/
structure FlightState where
  cache : Bool
  fetches : Nat
  tasks : List TaskPhase
deriving DecidableEq, Repr

/-- Run task `i` up to its next await point:
a `ready` task observes the cache (`src/app/quickstudioapi.py:49-51`) and either
completes on a hit or suspends into the HTTP await on a miss
(`src/app/quickstudioapi.py:53-57`); a `fetching` task completes its upstream
call and stores the response (`src/app/quickstudioapi.py:58-63`). -/
def stepTask (s : FlightState) (i : Nat) : FlightState :=
  match s.tasks.get? i with
  | some .ready =>
    if s.cache then { s with tasks := s.tasks.set i .done }
    else { s with tasks := s.tasks.set i .fetching }
  | some .fetching =>
    { cache := true, fetches := s.fetches + 1, tasks := s.tasks.set i .done }
  | _ => s

/-- Run a schedule (a sequence of task indices) from a state. -/
def runSched (s : FlightState) (sched : List Nat) : FlightState :=
  sched.foldl stepTask s

/-- `n` concurrent requests for the same uncached date. -/
def initFlight (n : Nat) : FlightState :=
  ⟨false, 0, List.replicate n .ready⟩

/-! ## Spec-side auxiliary definitions and concrete fixtures -/

/-- Which phases still owe work: a potential function for the fetch bound. -/
def nonDone : TaskPhase → Bool
  | .done => false
  | _ => true

/-- All band references of a response, in order: the raw `band` fields of its
records' bookings that are present. -/
def bandRefs (room_bookings : List RoomBooking) : List QSBand :=
  room_bookings.flatMap (fun rb => rb.bookings.filterMap (fun b => b.band))

/-- Fixture: a room open 19:00 with the midnight close sentinel `00:00`. -/
def roomMid : Room := ⟨1, "Room", "", 100, 1140, 0, "s"⟩

/-- Fixture: a booking 23:00-00:00 (ends at midnight) in `roomMid`. -/
def bookingMid : Booking := ⟨1, 0, 1380, 0, 7, 1⟩

/-- Fixture: a room open 09:00-18:00 (scenario C of the spec). -/
def roomStd : Room := ⟨1, "Room", "", 100, 540, 1080, "s"⟩

/-- Fixture: the spec's scenario-A room, 09:00-18:00, size 60, with the
documented noisy upstream name. -/
def roomA : Room := ⟨1, "3.Studio A bigroom", "", 60, 540, 1080, "s"⟩

/-- Fixture: an upstream record with one type-1 booking 10:00-11:00 and one
type-4 placeholder. -/
def rbFix : RoomBooking :=
  ⟨1, "r", "", 100, ⟨0, 540⟩, ⟨0, 1080⟩,
    [⟨1, ⟨0, 600⟩, ⟨0, 660⟩, some ⟨7, "b"⟩⟩, ⟨4, ⟨0, 0⟩, ⟨0, 540⟩, none⟩]⟩

/-- Fixture: the database state `refresh_bookings` produces from an empty
database and `rbFix`. -/
def dbFix : DBState :=
  ⟨[⟨1, "r", "", 100, 540, 1080, "s"⟩], [⟨7, "b"⟩], [⟨1, 0, 600, 660, 7, 1⟩]⟩

/-- Fixture: two upstream records sharing room id 1 but differing in name. -/
def rbDupA : RoomBooking := ⟨1, "a", "", 10, ⟨0, 540⟩, ⟨0, 1080⟩, []⟩

/-- Fixture: second record with room id 1, a different name. -/
def rbDupB : RoomBooking := ⟨1, "b", "", 10, ⟨0, 540⟩, ⟨0, 1080⟩, []⟩

/-! # Helper lemmas -/
theorem mem_pysetAdd {α : Type} [DecidableEq α] {l : List α} {x a : α} :
    a ∈ pysetAdd l x ↔ a = x ∨ a ∈ l := by
  unfold pysetAdd
  split
  · constructor
    · exact fun h => Or.inr h
    · rintro (rfl | h) <;> assumption
  · simp [List.mem_append, or_comm]

theorem pysetAdd_nodup {α : Type} [DecidableEq α] {l : List α} (x : α)
    (h : l.Nodup) : (pysetAdd l x).Nodup := by
  unfold pysetAdd
  split
  · exact h
  · simp_all [List.nodup_append]

theorem mem_insertSorted {α : Type} (le : α → α → Bool) (x a : α) :
    ∀ l : List α, a ∈ insertSorted le x l ↔ a = x ∨ a ∈ l
  | [] => by simp [insertSorted]
  | y :: ys => by
    simp only [insertSorted]
    split <;> simp only [List.mem_cons, mem_insertSorted le x a ys] <;> tauto

theorem mem_sortByKey {α : Type} (le : α → α → Bool) (l : List α) (a : α) :
    a ∈ sortByKey le l ↔ a ∈ l := by
  suffices h : ∀ acc : List α, a ∈ l.foldl (fun acc x => insertSorted le x acc) acc ↔
      a ∈ acc ∨ a ∈ l by
    simpa using h []
  induction l with
  | nil => simp
  | cons x xs ih =>
    intro acc
    simp only [List.foldl_cons, ih, mem_insertSorted]
    simp
    tauto

theorem pairwise_insertSorted {α : Type} (le : α → α → Bool)
    (htot : ∀ a b, le a b = true ∨ le b a = true)
    (htrans : ∀ a b c, le a b = true → le b c = true → le a c = true)
    (x : α) : ∀ l : List α, l.Pairwise (fun a b => le a b = true) →
      (insertSorted le x l).Pairwise (fun a b => le a b = true)
  | [], _ => by simp [insertSorted]
  | y :: ys, h => by
    simp only [insertSorted]
    rcases List.pairwise_cons.mp h with ⟨hy, hys⟩
    split
    · refine List.pairwise_cons.mpr ⟨?_, pairwise_insertSorted le htot htrans x ys hys⟩
      intro b hb
      rcases (mem_insertSorted le x b ys).mp hb with rfl | hb
      · assumption
      · exact hy b hb
    · refine List.pairwise_cons.mpr ⟨?_, h⟩
      intro b hb
      have hxy : le x y = true := by
        rcases htot x y with h' | h'
        · exact h'
        · simp_all
      rcases hb with _ | hb
      · exact hxy
      · exact htrans x y b hxy (hy b (by assumption))

theorem pairwise_sortByKey {α : Type} (le : α → α → Bool)
    (htot : ∀ a b, le a b = true ∨ le b a = true)
    (htrans : ∀ a b c, le a b = true → le b c = true → le a c = true)
    (l : List α) : (sortByKey le l).Pairwise (fun a b => le a b = true) := by
  suffices h : ∀ acc : List α, acc.Pairwise (fun a b => le a b = true) →
      (l.foldl (fun acc x => insertSorted le x acc) acc).Pairwise
        (fun a b => le a b = true) by
    exact h [] (by simp)
  induction l with
  | nil => intro acc hacc; simpa using hacc
  | cons x xs ih =>
    intro acc hacc
    exact ih _ (pairwise_insertSorted le htot htrans x acc hacc)

/-- Invariant of the sweep loop: provided every booking's end (as the code
combines it, with the query date) is not before its start, and no booking
starts after the close boundary, the emitted windows are chained
(each ends no later than the next starts), start at or after the cursor, are
nonempty, and end by the close boundary. -/
theorem sweepRoom_spec (date : Int) (name : String) (C : Int) :
    ∀ (bs : List Booking) (cursor : Int),
      (∀ b ∈ bs, combine b.date b.start ≤ combine date b.«end» ∧
        combine b.date b.start ≤ C) →
      (sweepRoom date name C cursor bs).Pairwise
        (fun w1 w2 => w1.«end» ≤ w2.start) ∧
      ∀ w ∈ sweepRoom date name C cursor bs,
        cursor ≤ w.start ∧ w.start < w.«end» ∧ w.«end» ≤ C := by
  intro bs
  induction bs with
  | nil =>
    intro cursor _
    constructor
    · simp only [sweepRoom]
      split <;> simp
    · intro w hw
      simp only [sweepRoom] at hw
      split at hw
      · next hC =>
        rcases List.mem_singleton.mp hw with rfl
        exact ⟨le_refl _, hC, le_refl _⟩
      · simp at hw
  | cons b rest ih =>
    intro cursor h
    have hb := h b (by simp)
    have hrest : ∀ b' ∈ rest, combine b'.date b'.start ≤ combine date b'.«end» ∧
        combine b'.date b'.start ≤ C := fun b' hb' => h b' (by simp [hb'])
    have ihc := ih (max (combine date b.«end») cursor) hrest
    have hmaxl : combine date b.«end» ≤ max (combine date b.«end») cursor :=
      le_max_left _ _
    have hmaxr : cursor ≤ max (combine date b.«end») cursor := le_max_right _ _
    constructor
    · simp only [sweepRoom]
      split
      · next hgt =>
        rw [List.singleton_append]
        refine List.pairwise_cons.mpr ⟨?_, ihc.1⟩
        intro w hw
        have hws := (ihc.2 w hw).1
        have hES := hb.1
        show combine b.date b.start ≤ w.start
        omega
      · rw [List.nil_append]
        exact ihc.1
    · intro w hw
      simp only [sweepRoom] at hw
      split at hw
      · next hgt =>
        rw [List.singleton_append] at hw
        rcases List.mem_cons.mp hw with rfl | hw
        · exact ⟨le_refl _, hgt, hb.2⟩
        · have hbounds := ihc.2 w hw
          exact ⟨le_trans hmaxr hbounds.1, hbounds.2⟩
      · rw [List.nil_append] at hw
        have hbounds := ihc.2 w hw
        exact ⟨le_trans hmaxr hbounds.1, hbounds.2⟩

/-! # Claim theorems -/

/-- C1 (code_bug evidence).  The midnight rule holds for the close boundary:
`min(room.close, to_time) = 00:00` resolves the close boundary to `date + 1`,
and the helper `combine_datetime_midnight_aware` resolves a midnight time to
`date + 1`.  But it fails for a booking end: the sweep's cursor update
(`src/app/main.py:211`) combines `booking.end` with `date`, not
midnight-aware; on a room open 19:00 with `close = 00:00` and a booking
23:00-00:00, the cursor after the booking stays at 19:00 (1140) instead of
advancing to next-day midnight (1440), and the engine emits the overlapping
windows `[19:00, 23:00)` and `[19:00, 24:00)`. -/
theorem claim_C1_midnight_resolution :
    (∀ (date : Int) (room : Room) (to_time : Nat),
      min room.close to_time = 0 →
      effective_close date room to_time = combine (date + 1) 0) ∧
    (∀ date : Int, combine_datetime_midnight_aware date 0 = combine (date + 1) 0) ∧
    compute_room_availabilities (some [roomMid]) [bookingMid] 0 1140 0 0 0 =
      [⟨"Room", 0, 1140, 1380⟩, ⟨"Room", 0, 1140, 1440⟩] ∧
    max (combine (0 : Int) bookingMid.«end») 1140 = 1140 ∧
    combine_datetime_midnight_aware 0 bookingMid.«end» = 1440 := by
  refine ⟨?_, ?_, by decide, by decide, by decide⟩
  · intro date room to_time hmin
    simp only [effective_close, hmin]
    simp
  · intro date
    simp [combine_datetime_midnight_aware]

/-- C1 witness: the close-boundary half applied at the concrete fixture. -/
theorem claim_C1_midnight_resolution_witness :
    min roomMid.close 0 = 0 ∧ effective_close 0 roomMid 0 = combine 1 0 :=
  ⟨by decide, claim_C1_midnight_resolution.1 0 roomMid 0 (by decide)⟩

/-- C2 counterexample: on a room open 19:00 with `close = 00:00` and a single
booking 23:00-00:00 (ending at midnight), the engine emits two windows for
that room that overlap — the second starts (19:00) strictly before the first
ends (23:00) — refuting "pairwise non-overlapping" as stated. -/
theorem claim_C2_counterexample :
    compute_room_availabilities (some [roomMid]) [bookingMid] 0 1140 0 0 0 =
      [⟨"Room", 0, 1140, 1380⟩, ⟨"Room", 0, 1140, 1440⟩] ∧
    ¬ ((1380 : Int) ≤ 1140 ∨ (1440 : Int) ≤ 1140) := by
  exact ⟨by decide, by decide⟩

/-- C2 as amended: for a room's generated windows to be pairwise
non-overlapping and confined to
`[effective_open, effective_close)`, it suffices that every booking, as the
code combines its boundaries (start with the booking's own date, end with the
query date — so in particular no booking ends at midnight with a later start),
ends no earlier than it starts and starts no later than the effective close
boundary. -/
theorem claim_C2_amended (date : Int) (from_time to_time : Nat) (minDur : Int)
    (room : Room) (bookings : List Booking)
    (h : ∀ b ∈ bookings, combine b.date b.start ≤ combine date b.«end» ∧
      combine b.date b.start ≤ effective_close date room to_time) :
    (roomWindows date from_time to_time minDur room bookings).Pairwise
      (fun w1 w2 => w1.«end» ≤ w2.start) ∧
    ∀ w ∈ roomWindows date from_time to_time minDur room bookings,
      effective_open date room from_time ≤ w.start ∧ w.start < w.«end» ∧
        w.«end» ≤ effective_close date room to_time := by
  have hs : ∀ b ∈ room_bookings_sorted bookings room,
      combine b.date b.start ≤ combine date b.«end» ∧
      combine b.date b.start ≤ effective_close date room to_time := by
    intro b hb
    exact h b (List.mem_of_mem_filter
      ((mem_sortByKey bookingStartLe _ b).mp hb))
  have main := sweepRoom_spec date (strip_room_name room.name)
    (effective_close date room to_time) (room_bookings_sorted bookings room)
    (effective_open date room from_time) hs
  constructor
  · simp only [roomWindows, roomSweep]
    exact List.Pairwise.sublist (List.filter_sublist _) main.1
  · intro w hw
    simp only [roomWindows, roomSweep] at hw
    exact main.2 w (List.mem_of_mem_filter hw)

/-- C2 amended witness: a room 09:00-18:00 with one well-formed booking
10:00-12:00 satisfies the hypotheses, and its windows obey the invariant. -/
theorem claim_C2_amended_witness :
    (∀ b ∈ [(⟨1, 0, 600, 720, 7, 1⟩ : Booking)],
      combine b.date b.start ≤ combine 0 b.«end» ∧
      combine b.date b.start ≤ effective_close 0 roomStd 1080) ∧
    ((roomWindows 0 540 1080 0 roomStd [⟨1, 0, 600, 720, 7, 1⟩]).Pairwise
      (fun w1 w2 => w1.«end» ≤ w2.start) ∧
    ∀ w ∈ roomWindows 0 540 1080 0 roomStd [⟨1, 0, 600, 720, 7, 1⟩],
      effective_open 0 roomStd 540 ≤ w.start ∧ w.start < w.«end» ∧
        w.«end» ≤ effective_close 0 roomStd 1080) :=
  ⟨by decide, claim_C2_amended 0 540 1080 0 roomStd _ (by decide)⟩

/-- C3: the sweep cursor is monotone and emission is exactly as specified —
each step of the loop emits `[cursor, booking.start)` precisely when the
booking starts strictly after the cursor, and the new cursor
`max(combine(date, booking.end), cursor)` never moves backward; on the spec's
scenario C (open 09:00-18:00, overlapping bookings 10:00-12:00 and
11:00-13:00) exactly the two windows `[09:00, 10:00)` and `[13:00, 18:00)`
are produced: one merged gap after 13:00 and none between. -/
theorem claim_C3_cursor_monotone :
    (∀ (date : Int) (b : Booking) (cursor : Int),
      cursor ≤ max (combine date b.«end») cursor) ∧
    (∀ (date : Int) (name : String) (C cursor : Int) (b : Booking)
        (rest : List Booking),
      sweepRoom date name C cursor (b :: rest) =
        (if combine b.date b.start > cursor then
          [⟨name, date, cursor, combine b.date b.start⟩]
        else []) ++
          sweepRoom date name C (max (combine date b.«end») cursor) rest) ∧
    compute_room_availabilities (some [roomStd])
      [⟨1, 0, 600, 720, 7, 1⟩, ⟨1, 0, 660, 780, 8, 1⟩] 0 540 1080 0 0 =
      [⟨"Room", 0, 540, 600⟩, ⟨"Room", 0, 780, 1080⟩] := by
  refine ⟨?_, ?_, by decide⟩
  · intro date b cursor
    exact le_max_right _ _
  · intro date name C cursor b rest
    rfl

/-- The engine pipeline, written out: sweep the size-qualified rooms, filter
by minimum duration, sort by start. -/
theorem compute_some_eq (rooms : List Room) (bookings : List Booking)
    (date : Int) (from_time to_time : Nat) (minDur minSize : Int) :
    compute_room_availabilities (some rooms) bookings date from_time to_time
        minDur minSize =
      sortByKey availStartLe
        (((rooms.filter (fun r => decide (minSize ≤ r.size))).flatMap
          (fun room => roomSweep date from_time to_time room bookings)).filter
          (fun a => decide (minDur ≤ a.«end» - a.start))) := rfl

/-- C4: the output contract of `_compute_room_availabilities` — every returned
window lasts at least the minimum duration; conversely no candidate window of
a size-qualified room with sufficient duration is dropped (completeness of
the sweep); the result is sorted by window start ascending; and rooms below
the minimum size contribute nothing (restricting the catalog to the qualifying
rooms leaves the result unchanged). -/
theorem claim_C4_output_contract (rooms : List Room) (bookings : List Booking)
    (date : Int) (from_time to_time : Nat) (minDur minSize : Int) :
    (∀ w ∈ compute_room_availabilities (some rooms) bookings date from_time
        to_time minDur minSize, minDur ≤ w.«end» - w.start) ∧
    (∀ w ∈ (rooms.filter (fun r => decide (minSize ≤ r.size))).flatMap
        (fun room => roomSweep date from_time to_time room bookings),
      minDur ≤ w.«end» - w.start →
      w ∈ compute_room_availabilities (some rooms) bookings date from_time
        to_time minDur minSize) ∧
    (compute_room_availabilities (some rooms) bookings date from_time to_time
        minDur minSize).Pairwise (fun a b => a.start ≤ b.start) ∧
    compute_room_availabilities (some rooms) bookings date from_time to_time
        minDur minSize =
      compute_room_availabilities
        (some (rooms.filter (fun r => decide (minSize ≤ r.size)))) bookings
        date from_time to_time minDur minSize := by
  have htot : ∀ a b : RoomAvailability,
      availStartLe a b = true ∨ availStartLe b a = true := by
    intro a b
    simp only [availStartLe, decide_eq_true_eq]
    exact le_total a.start b.start
  have htrans : ∀ a b c : RoomAvailability, availStartLe a b = true →
      availStartLe b c = true → availStartLe a c = true := by
    intro a b c
    simp only [availStartLe, decide_eq_true_eq]
    exact le_trans
  refine ⟨?_, ?_, ?_, ?_⟩
  · intro w hw
    rw [compute_some_eq] at hw
    have := (List.mem_filter.mp ((mem_sortByKey availStartLe _ w).mp hw)).2
    exact of_decide_eq_true this
  · intro w hmem hdur
    rw [compute_some_eq]
    exact (mem_sortByKey availStartLe _ w).mpr
      (List.mem_filter.mpr ⟨hmem, decide_eq_true hdur⟩)
  · rw [compute_some_eq]
    exact (pairwise_sortByKey availStartLe htot htrans _).imp
      (fun h => of_decide_eq_true h)
  · simp [compute_some_eq, List.filter_filter, Bool.and_self]

/-- C4 witness: the spec's scenario A — room 09:00-18:00 of size 60, one
booking 10:00-11:00, minimum size 50, minimum duration 30 — the qualifying gap
`[11:00, 18:00)` is indeed in the result (completeness applied concretely). -/
theorem claim_C4_output_contract_witness :
    (⟨"Studio A", 0, 660, 1080⟩ : RoomAvailability) ∈
      compute_room_availabilities (some [roomA]) [⟨1, 0, 600, 660, 7, 1⟩]
        0 540 1080 30 50 :=
  (claim_C4_output_contract [roomA] [⟨1, 0, 600, 660, 7, 1⟩]
    0 540 1080 30 50).2.1 _ (by decide) (by decide)

/-- Behaviour of the inner conversion loop: it fails exactly when some raw
booking of the list is bad, and on success it appends exactly the converted
type-1 bookings, in order. -/
theorem convOne_spec (room : Room) :
    ∀ (bs : List QSBooking) (bands : List Band) (bookings : List Booking),
      ((convOne room bands bookings bs).isOk = false ↔
        ∃ b ∈ bs, badBooking b) ∧
      (∀ out, convOne room bands bookings bs = .ok out →
        out.2 = bookings ++
          (bs.filter (fun b => b.type == 1)).map (mkRow room)) := by
  intro bs
  induction bs with
  | nil =>
    intro bands bookings
    constructor
    · simp [convOne, Except.isOk, Except.toBool]
    · intro out hout
      simp only [convOne] at hout
      cases hout
      simp
  | cons b rest ih =>
    intro bands bookings
    by_cases hb1 : b.type = 1
    · cases hband : b.band with
      | none =>
        constructor
        · simp only [convOne, hb1, if_pos, hband, Except.isOk]
          constructor
          · intro _
            exact ⟨b, by simp, Or.inr ⟨hb1, Or.inl hband⟩⟩
          · intro _
            rfl
        · intro out hout
          simp [convOne, hb1, hband] at hout
      | some qb =>
        by_cases hspan : spansIllegally b = true
        · constructor
          · simp only [convOne, hb1, if_pos, hband, hspan, if_pos, Except.isOk]
            constructor
            · intro _
              exact ⟨b, by simp, Or.inr ⟨hb1, Or.inr hspan⟩⟩
            · intro _
              rfl
          · intro out hout
            simp [convOne, hb1, hband, hspan] at hout
        · have hred : convOne room bands bookings (b :: rest) =
              convOne room (pysetAdd bands ⟨qb.id, qb.name⟩)
                (bookings ++ [mkRow room b]) rest := by
            simp [convOne, hb1, hband, hspan]
          have hnotbad : ¬ badBooking b := by
            simp [badBooking, hb1, hband, hspan]
          have iha := ih (pysetAdd bands ⟨qb.id, qb.name⟩)
            (bookings ++ [mkRow room b])
          constructor
          · rw [hred, iha.1]
            constructor
            · rintro ⟨b', hb', hbad⟩
              exact ⟨b', by simp [hb'], hbad⟩
            · rintro ⟨b', hb', hbad⟩
              rcases List.mem_cons.mp hb' with rfl | hb'
              · exact absurd hbad hnotbad
              · exact ⟨b', hb', hbad⟩
          · intro out hout
            rw [hred] at hout
            have := iha.2 out hout
            rw [this]
            simp [List.filter_cons, hb1]
    · by_cases hb4 : b.type = 4
      · have hred : convOne room bands bookings (b :: rest) =
            convOne room bands bookings rest := by
          simp [convOne, hb1, hb4]
        have hnotbad : ¬ badBooking b := by
          simp [badBooking, hb1, hb4]
        have iha := ih bands bookings
        constructor
        · rw [hred, iha.1]
          constructor
          · rintro ⟨b', hb', hbad⟩
            exact ⟨b', by simp [hb'], hbad⟩
          · rintro ⟨b', hb', hbad⟩
            rcases List.mem_cons.mp hb' with rfl | hb'
            · exact absurd hbad hnotbad
            · exact ⟨b', hb', hbad⟩
        · intro out hout
          rw [hred] at hout
          have := iha.2 out hout
          rw [this]
          have : (b.type == 1) = false := by
            simp [hb1]
          simp [List.filter_cons, this]
      · constructor
        · simp only [convOne, hb1, if_neg, hb4, Except.isOk]
          constructor
          · intro _
            exact ⟨b, by simp, Or.inl ⟨hb1, hb4⟩⟩
          · intro _
            rfl
        · intro out hout
          simp [convOne, hb1, hb4] at hout

/-- Behaviour of the outer conversion loop: it fails exactly when some raw
booking of some record is bad, and on success its bookings component appends
exactly the converted type-1 bookings of the whole response, in order. -/
theorem convAll_spec (studio_name : String) :
    ∀ (rbs : List RoomBooking) (rooms : List Room) (bands : List Band)
      (bookings : List Booking),
      ((convAll studio_name rooms bands bookings rbs).isOk = false ↔
        ∃ rb ∈ rbs, ∃ b ∈ rb.bookings, badBooking b) ∧
      (∀ out, convAll studio_name rooms bands bookings rbs = .ok out →
        out.2.2 = bookings ++ type1Rows studio_name rbs) := by
  intro rbs
  induction rbs with
  | nil =>
    intro rooms bands bookings
    constructor
    · simp [convAll, Except.isOk, Except.toBool]
    · intro out hout
      simp only [convAll] at hout
      cases hout
      simp [type1Rows]
  | cons rb rest ih =>
    intro rooms bands bookings
    cases hc : convOne (mkRoom studio_name rb) bands bookings rb.bookings with
    | error e =>
      have hex : ∃ b ∈ rb.bookings, badBooking b := by
        have := (convOne_spec (mkRoom studio_name rb) rb.bookings bands
          bookings).1
        rw [hc] at this
        exact this.mp rfl
      constructor
      · simp only [convAll, hc, Except.isOk]
        constructor
        · intro _
          exact ⟨rb, by simp, hex⟩
        · intro _
          rfl
      · intro out hout
        simp [convAll, hc] at hout
    | ok p =>
      have hred : convAll studio_name rooms bands bookings (rb :: rest) =
          convAll studio_name (pysetAdd rooms (mkRoom studio_name rb))
            p.1 p.2 rest := by
        simp [convAll, hc]
      have hno : ¬ ∃ b ∈ rb.bookings, badBooking b := by
        intro hex
        have h1 := (convOne_spec (mkRoom studio_name rb) rb.bookings bands
          bookings).1
        rw [hc] at h1
        have hfalse := h1.mpr hex
        simp [Except.isOk, Except.toBool] at hfalse
      have hp2 : p.2 = bookings ++
          (rb.bookings.filter (fun b => b.type == 1)).map
            (mkRow (mkRoom studio_name rb)) :=
        (convOne_spec (mkRoom studio_name rb) rb.bookings bands bookings).2 p hc
      have iha := ih (pysetAdd rooms (mkRoom studio_name rb)) p.1 p.2
      constructor
      · rw [hred, iha.1]
        constructor
        · rintro ⟨rb', hrb', hbad⟩
          exact ⟨rb', by simp [hrb'], hbad⟩
        · rintro ⟨rb', hrb', hbad⟩
          rcases List.mem_cons.mp hrb' with rfl | hrb'
          · exact absurd hbad hno
          · exact ⟨rb', hrb', hbad⟩
      · intro out hout
        rw [hred] at hout
        have := iha.2 out hout
        rw [this, hp2]
        simp [type1Rows, List.append_assoc]

/-- C5: normalization of an upstream response fails exactly when some raw
booking has a type other than 1 or 4, or has type 1 without a band reference,
or has type 1 with an illegal day span (crossing days other than ending at
midnight of the following day); on success the booking output is exactly the
converted type-1 records (type 4 silently dropped), and on failure the
`Except.error` carries no partial result. -/
theorem claim_C5_normalization_errors (studio_name : String)
    (room_bookings : List RoomBooking) :
    ((convert_quickstudio_response studio_name room_bookings).isOk = false ↔
      ∃ rb ∈ room_bookings, ∃ b ∈ rb.bookings, badBooking b) ∧
    (∀ out, convert_quickstudio_response studio_name room_bookings = .ok out →
      out.2.2 = type1Rows studio_name room_bookings) := by
  have h := convAll_spec studio_name room_bookings [] [] []
  constructor
  · exact h.1
  · intro out hout
    simpa using h.2 out hout

/-- C5 witness: on the fixture response (one type-1 booking with a band, one
type-4 placeholder) conversion succeeds and keeps exactly the type-1 row. -/
theorem claim_C5_normalization_errors_witness :
    (([⟨1, "r", "", 100, 540, 1080, "s"⟩], [⟨7, "b"⟩],
        [⟨1, 0, 600, 660, 7, 1⟩]) :
      List Room × List Band × List Booking).2.2 = type1Rows "s" [rbFix] :=
  (claim_C5_normalization_errors "s" [rbFix]).2 _ (by rfl)

/-- Upserting a room whose studio is `studio` preserves the presence, in the
room table, of an entry with a given id and that studio. -/
theorem mergeRoom_any_preserve (table : List Room) (r : Room) (rid : Int)
    (studio : String) (hr : r.studio_name = studio)
    (h : table.any (fun x => x.id == rid && x.studio_name == studio) = true) :
    (mergeRoom table r).any
      (fun x => x.id == rid && x.studio_name == studio) = true := by
  rcases List.any_eq_true.mp h with ⟨x, hx, hprop⟩
  simp only [Bool.and_eq_true, beq_iff_eq] at hprop
  unfold mergeRoom
  split
  · apply List.any_eq_true.mpr
    by_cases hid : x.id = r.id
    · refine ⟨r, List.mem_map.mpr ⟨x, hx, ?_⟩, ?_⟩
      · simp [hid]
      · simp [← hid, hprop.1, hr]
    · refine ⟨x, List.mem_map.mpr ⟨x, hx, ?_⟩, ?_⟩
      · simp [hid]
      · simp [hprop.1, hprop.2]
  · apply List.any_eq_true.mpr
    exact ⟨x, by simp [hx], by simp [hprop.1, hprop.2]⟩

/-- Upserting a room makes its own (id, studio) pair visible in the table. -/
theorem mergeRoom_any_self (table : List Room) (r : Room) (rid : Int)
    (studio : String) (hid : r.id = rid) (hst : r.studio_name = studio) :
    (mergeRoom table r).any
      (fun x => x.id == rid && x.studio_name == studio) = true := by
  unfold mergeRoom
  split
  · next hany =>
    rcases List.any_eq_true.mp hany with ⟨x, hx, hxid⟩
    apply List.any_eq_true.mpr
    exact ⟨r, List.mem_map.mpr ⟨x, hx, by simp [hxid]⟩, by simp [hid, hst]⟩
  · apply List.any_eq_true.mpr
    exact ⟨r, by simp, by simp [hid, hst]⟩

/-- Folding upserts of rooms of one studio preserves a visible (id, studio)
pair. -/
theorem foldl_merge_any_preserve :
    ∀ (rs : List Room) (table : List Room) (rid : Int) (studio : String),
      (∀ r ∈ rs, r.studio_name = studio) →
      table.any (fun x => x.id == rid && x.studio_name == studio) = true →
      (rs.foldl mergeRoom table).any
        (fun x => x.id == rid && x.studio_name == studio) = true
  | [], table, rid, studio, _, h => h
  | r :: rest, table, rid, studio, hall, h => by
    simp only [List.foldl_cons]
    exact foldl_merge_any_preserve rest (mergeRoom table r) rid studio
      (fun r' hr' => hall r' (by simp [hr']))
      (mergeRoom_any_preserve table r rid studio (hall r (by simp)) h)

/-- After folding upserts of rooms of one studio, every id occurring among
them is visible in the table with that studio. -/
theorem foldl_merge_any_establish :
    ∀ (rs : List Room) (table : List Room) (rid : Int) (studio : String),
      (∀ r ∈ rs, r.studio_name = studio) →
      (∃ r ∈ rs, r.id = rid) →
      (rs.foldl mergeRoom table).any
        (fun x => x.id == rid && x.studio_name == studio) = true
  | [], _, _, _, _, hex => by simp at hex
  | r :: rest, table, rid, studio, hall, hex => by
    simp only [List.foldl_cons]
    rcases hex with ⟨r', hr', hrid⟩
    rcases List.mem_cons.mp hr' with rfl | hr'
    · exact foldl_merge_any_preserve rest (mergeRoom table r') rid studio
        (fun x hx => hall x (by simp [hx]))
        (mergeRoom_any_self table r' rid studio hrid (hall r' (by simp)))
    · exact foldl_merge_any_establish rest (mergeRoom table r) rid studio
        (fun x hx => hall x (by simp [hx])) ⟨r', hr', hrid⟩

/-- Room bookkeeping of the outer conversion loop: the room accumulator only
grows, every produced room beyond it belongs to the requested studio, and
every produced booking row beyond the accumulator points at a produced room
of that studio. -/
theorem convAll_rooms_spec (studio_name : String) :
    ∀ (rbs : List RoomBooking) (rooms : List Room) (bands : List Band)
      (bookings : List Booking) (out : List Room × List Band × List Booking),
      convAll studio_name rooms bands bookings rbs = .ok out →
      (∀ r ∈ rooms, r ∈ out.1) ∧
      (∀ r ∈ out.1, r ∈ rooms ∨ r.studio_name = studio_name) ∧
      (∀ row ∈ out.2.2, row ∈ bookings ∨
        ∃ r ∈ out.1, r.id = row.room_id ∧ r.studio_name = studio_name) := by
  intro rbs
  induction rbs with
  | nil =>
    intro rooms bands bookings out hout
    simp only [convAll] at hout
    cases hout
    exact ⟨fun r hr => hr, fun r hr => Or.inl hr, fun row hrow => Or.inl hrow⟩
  | cons rb rest ih =>
    intro rooms bands bookings out hout
    cases hc : convOne (mkRoom studio_name rb) bands bookings rb.bookings with
    | error e =>
      simp [convAll, hc] at hout
    | ok p =>
      have hred : convAll studio_name rooms bands bookings (rb :: rest) =
          convAll studio_name (pysetAdd rooms (mkRoom studio_name rb))
            p.1 p.2 rest := by
        simp [convAll, hc]
      rw [hred] at hout
      have iha := ih (pysetAdd rooms (mkRoom studio_name rb)) p.1 p.2 out hout
      have hp2 : p.2 = bookings ++
          (rb.bookings.filter (fun b => b.type == 1)).map
            (mkRow (mkRoom studio_name rb)) :=
        (convOne_spec (mkRoom studio_name rb) rb.bookings bands bookings).2
          p hc
      refine ⟨?_, ?_, ?_⟩
      · intro r hr
        exact iha.1 r (mem_pysetAdd.mpr (Or.inr hr))
      · intro r hr
        rcases iha.2.1 r hr with hmem | hst
        · rcases mem_pysetAdd.mp hmem with rfl | hmem
          · exact Or.inr rfl
          · exact Or.inl hmem
        · exact Or.inr hst
      · intro row hrow
        rcases iha.2.2 row hrow with hmem | hex
        · rw [hp2] at hmem
          rcases List.mem_append.mp hmem with hmem | hmem
          · exact Or.inl hmem
          · rcases List.mem_map.mp hmem with ⟨b, _, rfl⟩
            refine Or.inr ⟨mkRoom studio_name rb,
              iha.1 _ (mem_pysetAdd.mpr (Or.inl rfl)), rfl, rfl⟩
        · exact Or.inr hex

/-- After a successful `refresh_bookings`, the stored bookings of the
(studio, date) are exactly the converted type-1 bookings of the upstream
response whose date is that date. -/
theorem refresh_get (db db' : DBState) (studio_name : String) (date : Int)
    (rbs : List RoomBooking)
    (h : refresh_bookings db studio_name date rbs = .ok db') :
    get_bookings db' studio_name date =
      (type1Rows studio_name rbs).filter (fun b => b.date == date) := by
  cases hc : convert_quickstudio_response studio_name rbs with
  | error e =>
    simp [refresh_bookings, hc] at h
  | ok t =>
    obtain ⟨rooms, bands, bookings⟩ := t
    simp only [refresh_bookings, hc] at h
    have hall : ∀ r ∈ rooms, r.studio_name = studio_name := by
      intro r hr
      rcases (convAll_rooms_spec studio_name rbs [] [] []
        (rooms, bands, bookings) hc).2.1 r hr with hmem | hst
      · simp at hmem
      · exact hst
    have hrows : ∀ row ∈ bookings,
        ∃ r ∈ rooms, r.id = row.room_id ∧ r.studio_name = studio_name := by
      intro row hrow
      rcases (convAll_rooms_spec studio_name rbs [] [] []
        (rooms, bands, bookings) hc).2.2 row hrow with hmem | hex
      · simp at hmem
      · exact hex
    have hbookings : bookings = type1Rows studio_name rbs := by
      have := (convAll_spec studio_name rbs [] [] []).2
        (rooms, bands, bookings) hc
      simpa using this
    rw [Except.ok.injEq] at h
    subst h
    simp only [get_bookings]
    rw [List.filter_append]
    have hA : (db.bookings.filter (fun b =>
        !((db.bookings.filter (fun b' => b'.date == date &&
          (rooms.foldl mergeRoom db.rooms).any (fun r =>
            r.id == b'.room_id && r.studio_name == studio_name))).contains
          b))).filter (fun b => b.date == date &&
        (rooms.foldl mergeRoom db.rooms).any (fun r =>
          r.id == b.room_id && r.studio_name == studio_name)) = [] := by
      apply List.filter_eq_nil_iff.mpr
      intro a ha
      rcases List.mem_filter.mp ha with ⟨hmem, hq⟩
      rw [Bool.not_eq_true'] at hq
      intro hcond
      have : a ∈ db.bookings.filter (fun b' => b'.date == date &&
          (rooms.foldl mergeRoom db.rooms).any (fun r =>
            r.id == b'.room_id && r.studio_name == studio_name)) :=
        List.mem_filter.mpr ⟨hmem, hcond⟩
      rw [← List.elem_iff] at this
      simp [List.contains] at hq
      simp at this
      obtain ⟨m1, m2, x, hx, hxid, hxst⟩ := this
      exact hq m1 m2 x hx hxid hxst
    have hB : bookings.filter (fun b => b.date == date &&
        (rooms.foldl mergeRoom db.rooms).any (fun r =>
          r.id == b.room_id && r.studio_name == studio_name)) =
        bookings.filter (fun b => b.date == date) := by
      apply List.filter_congr
      intro b hb
      rcases hrows b hb with ⟨r, hr, hrid, hrst⟩
      have hany := foldl_merge_any_establish rooms db.rooms b.room_id
        studio_name hall ⟨r, hr, hrid⟩
      rw [hany, Bool.and_true]
    rw [hA, hB, hbookings, List.nil_append]

/-- C6: after `refresh_bookings` for a (studio, date), the stored booking set
for that date is exactly the type-1 bookings of the upstream response dated
that day (stale rows deleted, fresh rows inserted), and refreshing again with
identical upstream data leaves the stored set identical. -/
theorem claim_C6_refresh_replaces (db db1 db2 : DBState)
    (studio_name : String) (date : Int) (rbs : List RoomBooking)
    (h1 : refresh_bookings db studio_name date rbs = .ok db1)
    (h2 : refresh_bookings db1 studio_name date rbs = .ok db2) :
    get_bookings db1 studio_name date =
      (type1Rows studio_name rbs).filter (fun b => b.date == date) ∧
    get_bookings db2 studio_name date = get_bookings db1 studio_name date :=
  ⟨refresh_get db db1 studio_name date rbs h1,
   (refresh_get db1 db2 studio_name date rbs h2).trans
     (refresh_get db db1 studio_name date rbs h1).symm⟩

/-- C6 witness: refreshing an empty database with the fixture response yields
`dbFix`, a second refresh is a fixed point, and the stored set for the date is
the converted type-1 row. -/
theorem claim_C6_refresh_replaces_witness :
    (refresh_bookings ⟨[], [], []⟩ "s" 0 [rbFix] = .ok dbFix ∧
      refresh_bookings dbFix "s" 0 [rbFix] = .ok dbFix) ∧
    (get_bookings dbFix "s" 0 =
        (type1Rows "s" [rbFix]).filter (fun b => b.date == 0) ∧
      get_bookings dbFix "s" 0 = get_bookings dbFix "s" 0) :=
  ⟨⟨by rfl, by rfl⟩,
   claim_C6_refresh_replaces ⟨[], [], []⟩ dbFix dbFix "s" 0 [rbFix]
     (by rfl) (by rfl)⟩

/-- One scheduler step never increases the potential
`fetches + #(tasks still owing work)`: a cache hit retires a task for free, a
miss turns `ready` into `fetching`, and a fetch completion trades one owing
task for one counted fetch. -/
theorem stepTask_pot (s : FlightState) (i : Nat) :
    (stepTask s i).fetches + (stepTask s i).tasks.countP nonDone ≤
      s.fetches + s.tasks.countP nonDone := by
  unfold stepTask
  split
  · next heq =>
    rw [List.get?_eq_getElem?] at heq
    rcases List.getElem?_eq_some.mp heq with ⟨hlen, hli⟩
    have hone : 0 < s.tasks.countP nonDone :=
      List.countP_pos_iff.mpr ⟨s.tasks[i], List.getElem_mem hlen,
        by rw [hli]; rfl⟩
    split
    · show s.fetches + (s.tasks.set i TaskPhase.done).countP nonDone ≤
        s.fetches + s.tasks.countP nonDone
      have hcnt := List.countP_set nonDone s.tasks i TaskPhase.done hlen
      rw [hli] at hcnt
      simp only [nonDone] at hcnt
      simp at hcnt
      omega
    · show s.fetches + (s.tasks.set i TaskPhase.fetching).countP nonDone ≤
        s.fetches + s.tasks.countP nonDone
      have hcnt := List.countP_set nonDone s.tasks i TaskPhase.fetching hlen
      rw [hli] at hcnt
      simp only [nonDone] at hcnt
      simp at hcnt
      omega
  · next heq =>
    rw [List.get?_eq_getElem?] at heq
    rcases List.getElem?_eq_some.mp heq with ⟨hlen, hli⟩
    have hone : 0 < s.tasks.countP nonDone :=
      List.countP_pos_iff.mpr ⟨s.tasks[i], List.getElem_mem hlen,
        by rw [hli]; rfl⟩
    show (s.fetches + 1) + (s.tasks.set i TaskPhase.done).countP nonDone ≤
      s.fetches + s.tasks.countP nonDone
    have hcnt := List.countP_set nonDone s.tasks i TaskPhase.done hlen
    rw [hli] at hcnt
    simp only [nonDone] at hcnt
    simp at hcnt
    omega
  · exact le_refl _

/-- The potential only decreases along any schedule. -/
theorem runSched_pot :
    ∀ (sched : List Nat) (s : FlightState),
      (runSched s sched).fetches + (runSched s sched).tasks.countP nonDone ≤
        s.fetches + s.tasks.countP nonDone
  | [], s => le_refl _
  | i :: rest, s => by
    simp only [runSched, List.foldl_cons]
    exact le_trans (runSched_pot rest (stepTask s i)) (stepTask_pot s i)

/-- Each of `n` initially-ready tasks is owing work. -/
theorem countP_initFlight (n : Nat) :
    (initFlight n).tasks.countP nonDone = n := by
  simp only [initFlight]
  induction n with
  | zero => simp
  | succ k ih => simp [List.replicate_succ, List.countP_cons, nonDone, ih]

/-- C7 counterexample: two concurrent requests for the same uncached date,
interleaved so that both observe the cache miss before either stores the
response (schedule task 0 check, task 1 check, task 0 fetch, task 1 fetch),
issue two upstream fetches — not the single fetch the claim requires. -/
theorem claim_C7_counterexample :
    (runSched (initFlight 2) [0, 1, 0, 1]).fetches = 2 ∧
    (runSched (initFlight 2) [0, 1, 0, 1]).fetches ≠ 1 := by
  exact ⟨by decide, by decide⟩

/-- C7 as amended: there is no cross-request single-flight — concurrent
cache-missing requests may each issue an upstream fetch — but each request
task issues at most one fetch, so `n` concurrent requests (in particular, the
one task per distinct date a single batch spawns) issue at most `n` upstream
calls under any interleaving; and when one request completes before the other
checks, the TTL cache does share the result (one fetch on the serialized
schedule). -/
theorem claim_C7_amended :
    (∀ (n : Nat) (sched : List Nat),
      (runSched (initFlight n) sched).fetches ≤ n) ∧
    (runSched (initFlight 2) [0, 0, 1, 1]).fetches = 1 := by
  constructor
  · intro n sched
    have h := runSched_pot sched (initFlight n)
    rw [countP_initFlight] at h
    have h0 : (initFlight n).fetches = 0 := rfl
    rw [h0] at h
    omega
  · decide

/-- Band bookkeeping of the models-variant inner loop: the band accumulator
only grows, stays duplicate-free, and every element beyond it is built from a
band reference of the processed bookings. -/
theorem mconvOne_spec (room : Room) :
    ∀ (bs : List QSBooking) (bands : List Band) (bookings : List MBooking)
      (out : List Band × List MBooking),
      mconvOne room bands bookings bs = .ok out →
      (∀ x ∈ bands, x ∈ out.1) ∧
      (bands.Nodup → out.1.Nodup) ∧
      (∀ x ∈ out.1, x ∈ bands ∨
        ∃ qb ∈ bs.filterMap (fun b => b.band), x = (⟨qb.id, qb.name⟩ : Band)) := by
  intro bs
  induction bs with
  | nil =>
    intro bands bookings out hout
    simp only [mconvOne] at hout
    cases hout
    exact ⟨fun x hx => hx, fun h => h, fun x hx => Or.inl hx⟩
  | cons b rest ih =>
    intro bands bookings out hout
    by_cases hb1 : b.type = 1
    · cases hband : b.band with
      | none => simp [mconvOne, hb1, hband] at hout
      | some qb =>
        by_cases hspan : spansIllegally b = true
        · simp [mconvOne, hb1, hband, hspan] at hout
        · have hred : mconvOne room bands bookings (b :: rest) =
              mconvOne room (pysetAdd bands ⟨qb.id, qb.name⟩)
                (bookings ++ [mkMBooking room b]) rest := by
            simp [mconvOne, hb1, hband, hspan]
          rw [hred] at hout
          have iha := ih (pysetAdd bands ⟨qb.id, qb.name⟩)
            (bookings ++ [mkMBooking room b]) out hout
          refine ⟨?_, ?_, ?_⟩
          · intro x hx
            exact iha.1 x (mem_pysetAdd.mpr (Or.inr hx))
          · intro hnd
            exact iha.2.1 (pysetAdd_nodup _ hnd)
          · intro x hx
            rcases iha.2.2 x hx with hmem | ⟨qb', hqb', hx'⟩
            · rcases mem_pysetAdd.mp hmem with rfl | hmem
              · exact Or.inr ⟨qb, by simp [List.filterMap_cons, hband], rfl⟩
              · exact Or.inl hmem
            · exact Or.inr ⟨qb', by
                rcases hb : b.band with _ | qb'' <;>
                  simp [List.filterMap_cons, hb, hqb'], hx'⟩
    · by_cases hb4 : b.type = 4
      · have hred : mconvOne room bands bookings (b :: rest) =
            mconvOne room bands bookings rest := by
          simp [mconvOne, hb1, hb4]
        rw [hred] at hout
        have iha := ih bands bookings out hout
        refine ⟨iha.1, iha.2.1, ?_⟩
        intro x hx
        rcases iha.2.2 x hx with hmem | ⟨qb', hqb', hx'⟩
        · exact Or.inl hmem
        · exact Or.inr ⟨qb', by
            rcases hb : b.band with _ | qb'' <;>
              simp [List.filterMap_cons, hb, hqb'], hx'⟩
      · simp [mconvOne, hb1, hb4] at hout

/-- Room and band bookkeeping of the models-variant outer loop. -/
theorem mconvAll_spec (studio_name : String) :
    ∀ (rbs : List RoomBooking) (rooms : List Room) (bands : List Band)
      (bookings : List MBooking)
      (out : List Band × List MBooking × List Room),
      mconvAll studio_name rooms bands bookings rbs = .ok out →
      (rooms.Nodup → out.2.2.Nodup) ∧
      (∀ x ∈ out.2.2, x ∈ rooms ∨ ∃ rb ∈ rbs, x = mkRoom studio_name rb) ∧
      (bands.Nodup → out.1.Nodup) ∧
      (∀ x ∈ out.1, x ∈ bands ∨
        ∃ qb ∈ bandRefs rbs, x = (⟨qb.id, qb.name⟩ : Band)) := by
  intro rbs
  induction rbs with
  | nil =>
    intro rooms bands bookings out hout
    simp only [mconvAll] at hout
    cases hout
    exact ⟨fun h => h, fun x hx => Or.inl hx, fun h => h, fun x hx => Or.inl hx⟩
  | cons rb rest ih =>
    intro rooms bands bookings out hout
    cases hc : mconvOne (mkRoom studio_name rb) bands bookings rb.bookings with
    | error e => simp [mconvAll, hc] at hout
    | ok p =>
      have hred : mconvAll studio_name rooms bands bookings (rb :: rest) =
          mconvAll studio_name (pysetAdd rooms (mkRoom studio_name rb))
            p.1 p.2 rest := by
        simp [mconvAll, hc]
      rw [hred] at hout
      have iha := ih (pysetAdd rooms (mkRoom studio_name rb)) p.1 p.2 out hout
      have hone := mconvOne_spec (mkRoom studio_name rb) rb.bookings bands
        bookings p hc
      refine ⟨?_, ?_, ?_, ?_⟩
      · intro hnd
        exact iha.1 (pysetAdd_nodup _ hnd)
      · intro x hx
        rcases iha.2.1 x hx with hmem | ⟨rb', hrb', hx'⟩
        · rcases mem_pysetAdd.mp hmem with rfl | hmem
          · exact Or.inr ⟨rb, by simp, rfl⟩
          · exact Or.inl hmem
        · exact Or.inr ⟨rb', by simp [hrb'], hx'⟩
      · intro hnd
        exact iha.2.2.1 (hone.2.1 hnd)
      · intro x hx
        rcases iha.2.2.2 x hx with hmem | ⟨qb', hqb', hx'⟩
        · rcases hone.2.2 x hmem with hmem' | ⟨qb', hqb', hx'⟩
          · exact Or.inl hmem'
          · exact Or.inr ⟨qb', by
              simp only [bandRefs, List.flatMap_cons, List.mem_append]
              exact Or.inl hqb', hx'⟩
        · exact Or.inr ⟨qb', by
            simp only [bandRefs, List.flatMap_cons, List.mem_append]
            right
            simpa [bandRefs] using hqb', hx'⟩

/-- C8 counterexample: two raw records sharing room id 1 but with different
names yield TWO canonical Room entries with the same id — the Python set
deduplicates by full value (pydantic equality), not by id alone, so
"exactly one canonical Room entry per room id" fails when fields differ. -/
theorem claim_C8_counterexample :
    models_convert_quickstudio_response "s" [rbDupA, rbDupB] =
      .ok ([], [], [mkRoom "s" rbDupA, mkRoom "s" rbDupB]) ∧
    (mkRoom "s" rbDupA).id = (mkRoom "s" rbDupB).id ∧
    mkRoom "s" rbDupA ≠ mkRoom "s" rbDupB := by
  exact ⟨by rfl, by rfl, by decide⟩

/-- C8 as amended: normalization deduplicates rooms and bands by full
structural value — the output lists never contain two equal entries — and
when all raw records that share a room id agree on the room's fields (and all
band references sharing an id agree), there is exactly one canonical entry per
id. -/
theorem claim_C8_amended (studio_name : String) (rbs : List RoomBooking)
    (out : List Band × List MBooking × List Room)
    (h : models_convert_quickstudio_response studio_name rbs = .ok out) :
    out.2.2.Nodup ∧ out.1.Nodup ∧
    ((∀ rb1 ∈ rbs, ∀ rb2 ∈ rbs, rb1.id = rb2.id →
        mkRoom studio_name rb1 = mkRoom studio_name rb2) →
      (out.2.2.map (fun r => r.id)).Nodup) ∧
    ((∀ qb1 ∈ bandRefs rbs, ∀ qb2 ∈ bandRefs rbs, qb1.id = qb2.id →
        qb1 = qb2) →
      (out.1.map (fun b => b.id)).Nodup) := by
  have hspec := mconvAll_spec studio_name rbs [] [] [] out h
  have hroomsrc : ∀ x ∈ out.2.2, ∃ rb ∈ rbs, x = mkRoom studio_name rb := by
    intro x hx
    rcases hspec.2.1 x hx with hmem | hex
    · simp at hmem
    · exact hex
  have hbandsrc : ∀ x ∈ out.1,
      ∃ qb ∈ bandRefs rbs, x = (⟨qb.id, qb.name⟩ : Band) := by
    intro x hx
    rcases hspec.2.2.2 x hx with hmem | hex
    · simp at hmem
    · exact hex
  refine ⟨hspec.1 (by simp), hspec.2.2.1 (by simp), ?_, ?_⟩
  · intro hsame
    refine List.Nodup.map_on ?_ (hspec.1 (by simp))
    intro x hx y hy hxy
    rcases hroomsrc x hx with ⟨rb1, hrb1, rfl⟩
    rcases hroomsrc y hy with ⟨rb2, hrb2, rfl⟩
    exact hsame rb1 hrb1 rb2 hrb2 hxy
  · intro hsame
    refine List.Nodup.map_on ?_ (hspec.2.2.1 (by simp))
    intro x hx y hy hxy
    rcases hbandsrc x hx with ⟨qb1, hqb1, rfl⟩
    rcases hbandsrc y hy with ⟨qb2, hqb2, rfl⟩
    rw [hsame qb1 hqb1 qb2 hqb2 hxy]

/-- C8 amended witness: on the fixture response the amended dedup properties
hold for the concrete output. -/
theorem claim_C8_amended_witness :
    ([mkRoom "s" rbFix] : List Room).Nodup ∧
    ([(⟨7, "b"⟩ : Band)]).Nodup ∧
    (([mkRoom "s" rbFix] : List Room).map (fun r => r.id)).Nodup ∧
    (([(⟨7, "b"⟩ : Band)]).map (fun b => b.id)).Nodup := by
  have h := claim_C8_amended "s" [rbFix]
    ([⟨7, "b"⟩], [mkMBooking (mkRoom "s" rbFix)
      ⟨1, ⟨0, 600⟩, ⟨0, 660⟩, some ⟨7, "b"⟩⟩], [mkRoom "s" rbFix]) (by rfl)
  exact ⟨h.1, h.2.1, h.2.2.1 (by decide), h.2.2.2 (by decide)⟩

/-- `takeWhile` over a list that is all-satisfying followed by a failing
element stops exactly at that element. -/
theorem takeWhile_all_append (p : Char → Bool) :
    ∀ (l1 : List Char) (a : Char) (l2 : List Char),
      (∀ c ∈ l1, p c = true) → p a = false →
      (l1 ++ a :: l2).takeWhile p = l1
  | [], a, l2, _, ha => by simp [List.takeWhile_cons, ha]
  | c :: cs, a, l2, hall, ha => by
    have hc : p c = true := hall c (by simp)
    simp [List.takeWhile_cons, hc,
      takeWhile_all_append p cs a l2 (fun x hx => hall x (by simp [hx])) ha]

/-- If the leading word/space run of the remainder contains no whitespace, the
backtracking group matcher fails: the group cannot end anywhere. -/
theorem grpAux_none :
    ∀ (t : List Char),
      (∀ c ∈ t.takeWhile isWordSpace, isSpaceChar c = false) →
      ∀ acc, grpAux acc t = none
  | [], _, acc => rfl
  | c :: cs, h, acc => by
    by_cases hw : isWordSpace c = true
    · have hsp : isSpaceChar c = false := h c (by simp [List.takeWhile_cons, hw])
      have hrest : ∀ x ∈ cs.takeWhile isWordSpace, isSpaceChar x = false := by
        intro x hx
        apply h
        simp only [List.takeWhile_cons, hw, if_true]
        exact List.mem_cons.mpr (Or.inr hx)
      simp only [grpAux, hw, if_true]
      rw [grpAux_none cs hrest (acc ++ [c])]
      simp [hsp]
    · have hw' : isWordSpace c = false := by
        revert hw
        cases isWordSpace c <;> simp
      simp [grpAux, hw']

/-- Greedy capture: over `g ++ s :: t`, with `g` word/space, `s` whitespace
and no whitespace in `t`'s leading word/space run, the matcher captures
exactly `acc ++ g`, provided `.*$` accepts `t`. -/
theorem grpAux_greedy :
    ∀ (g : List Char), (∀ c ∈ g, isWordSpace c = true) →
      ∀ (s : Char) (t : List Char), isSpaceChar s = true →
        (∀ c ∈ t.takeWhile isWordSpace, isSpaceChar c = false) →
        matchTail t = true →
        ∀ acc : List Char, acc ++ g ≠ [] →
          grpAux acc (g ++ s :: t) = some (acc ++ g)
  | [], _, s, t, hs, ht, htail, acc, hne => by
    have hw : isWordSpace s = true := by simp [isWordSpace, hs]
    have hrec := grpAux_none t ht (acc ++ [s])
    simp only [List.nil_append] at hne ⊢
    simp only [grpAux, hw, if_true]
    rw [hrec]
    have hacc : acc.isEmpty = false := by
      cases acc
      · simp at hne
      · rfl
    simp [hacc, hs, htail]
  | c :: g', hg, s, t, hs, ht, htail, acc, hne => by
    have hw : isWordSpace c = true := hg c (by simp)
    have hrec := grpAux_greedy g' (fun x hx => hg x (by simp [hx])) s t hs ht
      htail (acc ++ [c]) (by simp)
    simp only [List.cons_append]
    simp only [grpAux, hw, if_true]
    rw [hrec]
    simp

/-- C9 as amended: the stripper does not return the *first* run of word/space
characters — it captures greedily, i.e. it returns the whole leading
word/space run of the remainder up to the run's last whitespace (here stated
for decompositions `g ++ s :: t` where `s` is that last whitespace: nothing in
`t`'s leading word/space run is whitespace).  On the spec's example the result
agrees ("3.Studio A bigroom" to "Studio A"), but noise containing word/space
characters stays in the captured name ("3.Studio A big room" to
"Studio A big"). -/
theorem claim_C9_amended :
    (∀ (ds g t : List Char) (s : Char),
      ds ≠ [] → (∀ c ∈ ds, c.isDigit = true) →
      g ≠ [] → (∀ c ∈ g, isWordSpace c = true) →
      isSpaceChar s = true →
      (∀ c ∈ t.takeWhile isWordSpace, isSpaceChar c = false) →
      matchTail t = true →
      strip_room_name (String.mk (ds ++ '.' :: (g ++ s :: t))) = String.mk g) ∧
    strip_room_name "3.Studio A bigroom" = "Studio A" ∧
    strip_room_name "3.Studio A big room" = "Studio A big" := by
  refine ⟨?_, by rfl, by rfl⟩
  intro ds g t s hds hdig hg hgws hs ht htail
  have hdot : ('.' : Char).isDigit = false := by decide
  have htw : ((ds ++ '.' :: (g ++ s :: t)).takeWhile Char.isDigit) = ds :=
    takeWhile_all_append Char.isDigit ds '.' _ hdig hdot
  have hdata : (String.mk (ds ++ '.' :: (g ++ s :: t))).data =
      ds ++ '.' :: (g ++ s :: t) := rfl
  simp only [strip_room_name, hdata, htw, List.drop_left]
  cases ds with
  | nil => exact absurd rfl hds
  | cons d ds' =>
    simp only []
    rw [grpAux_greedy g hgws s t hs ht htail [] (by simp [hg])]
    simp

/-- C9 amended witness: the general characterization applied to the concrete
name "12.Big Hall x!" — the captured group is "Big Hall". -/
theorem claim_C9_amended_witness :
    strip_room_name (String.mk (['1', '2'] ++ '.' ::
        ((['B', 'i', 'g', ' ', 'H', 'a', 'l', 'l'] ++ ' ' :: ['x', '!'])))) =
      String.mk ['B', 'i', 'g', ' ', 'H', 'a', 'l', 'l'] :=
  claim_C9_amended.1 ['1', '2'] ['B', 'i', 'g', ' ', 'H', 'a', 'l', 'l']
    ['x', '!'] ' ' (by decide) (by decide) (by decide) (by decide)
    (by decide) (by decide) (by decide)

/-- C9 counterexample: the spec's wording ("capture the first run of
word/space characters, discard the remainder") formalized as
`spec_strip_room_name` disagrees with the code on the spec's own example —
spaces belong to the word/space class, so the first (maximal) run is
"Studio A bigroom", while the code captures "Studio A". -/
theorem claim_C9_counterexample :
    spec_strip_room_name "3.Studio A bigroom" = "Studio A bigroom" ∧
    strip_room_name "3.Studio A bigroom" = "Studio A" ∧
    ("Studio A bigroom" : String) ≠ "Studio A" := by
  exact ⟨by rfl, by rfl, by decide⟩

/-- C10: for `end_date < start_date` the date-range expansion is empty and the
`/availability` loop produces an empty per-date mapping (no error is possible:
the functions are total); for `end_date = start_date` exactly that one date is
produced — the range is inclusive of both endpoints. -/
theorem claim_C10_date_range :
    (∀ (start_date end_date : Int) (rooms? : Option (List Room))
        (bookingsOf : Int → List Booking) (days_of_week : List Int)
        (from_time to_time : Nat) (minDur minSize : Int),
      end_date < start_date →
      get_dates_from_range start_date end_date = [] ∧
      room_availabilities_per_date rooms? bookingsOf start_date end_date
        days_of_week from_time to_time minDur minSize = []) ∧
    (∀ d : Int, get_dates_from_range d d = [d]) := by
  constructor
  · intro s e rooms? bookingsOf days ft tt mD mS hlt
    have h0 : (e - s + 1).toNat = 0 := Int.toNat_of_nonpos (by omega)
    constructor
    · simp [get_dates_from_range, h0]
    · simp [room_availabilities_per_date, availability_dates, h0]
  · intro d
    have h1 : (d - d + 1).toNat = 1 := by omega
    show (List.range (d - d + 1).toNat).map (fun day => d + day) = [d]
    rw [h1, show List.range 1 = [0] from rfl]
    simp

/-- C10 witness: a concrete inverted range (start 0, end -1) yields the empty
expansion and the empty mapping. -/
theorem claim_C10_date_range_witness :
    ((-1 : Int) < 0) ∧
    (get_dates_from_range 0 (-1) = [] ∧
      room_availabilities_per_date none (fun _ => []) 0 (-1)
        [1, 2, 3, 4, 5, 6, 7] 0 0 0 0 = []) :=
  ⟨by decide, claim_C10_date_range.1 0 (-1) none (fun _ => [])
    [1, 2, 3, 4, 5, 6, 7] 0 0 0 0 (by decide)⟩
